import Mathlib

/-!
Shallow embedding of the `validate` package-provenance checker.

The embedding mirrors the two source files:
* `src/lib/index.js` — `packageHash`, `fetchPackageSource` (integrity check),
  `fetchGitSource` (git reconciliation state machine), `ValidationError`,
  `Taint`, and `check` (orchestrator with diff reconciliation).
* `src/bin/validate` — `validatePkg` / `validate` (dependency walker with
  memoization).

JavaScript strings handled character-wise (diff filtering) are modelled as
`List Char`; other strings stay `String`.  A JS value that may be `undefined`
is modelled as an `Option`; JS truthiness of such a string value (`undefined`
and `""` are both falsy) is `jsTruthyStr`.  External collaborators (registry,
git, tar, diff, crypto) are modelled as environment parameters recording the
outcome of each call, exactly at the call sites the source has.
-/

namespace Validate

/-- JS truthiness of a possibly-`undefined` string: `undefined` and `""` are falsy. -/
def jsTruthyStr : Option String → Bool
  | Option.none => false
  | some s => !(s == "")

/-- The character list of a string literal. -/
def chars (s : String) : List Char := s.data

/-- JS `String.prototype.split(sep)`: split at every separator occurrence. -/
def jsSplit (sep : Char) : List Char → List (List Char)
  | [] => [[]]
  | c :: rest =>
    let r := jsSplit sep rest
    if c = sep then [] :: r
    else
      match r with
      | [] => [[c]]
      | h :: t => (c :: h) :: t

/-- JS `Array.prototype.join(sep)`. -/
def jsJoin (sep : Char) : List (List Char) → List Char
  | [] => []
  | [x] => x
  | x :: xs => x ++ sep :: jsJoin sep xs

/-- The whitespace characters relevant to JS `String.prototype.trim` here. -/
def isWs (c : Char) : Bool := c == ' ' || c == '\t' || c == '\n' || c == '\r'

/-- JS `String.prototype.trim`: strip whitespace at both ends. -/
def jsTrim (s : List Char) : List Char :=
  ((s.dropWhile isWs).reverse.dropWhile isWs).reverse

/-- `jsTrim` on `String`s (used for the `git rev-parse` output). -/
def jsTrimS (s : String) : String := String.mk (jsTrim s.data)

/-- Lowercase hex digit for a value below 16 (as produced by node hex encoding). -/
def hexDigitChar (n : Nat) : Char :=
  if n < 10 then Char.ofNat (48 + n) else Char.ofNat (87 + n)

/-- Lowercase hex encoding of a byte list, as node `digest('hex')` /
`Buffer.toString('hex')` produce. -/
def hexEncode (bytes : List Nat) : String :=
  String.mk (bytes.foldr (fun b acc => hexDigitChar (b / 16 % 16) :: hexDigitChar (b % 16) :: acc) [])

/-! ### Taint (src/lib/index.js lines 58-73)

A JS `Taint` object is a heap allocation; `clean()` tests reference identity
with the shared `Taint.none` sentinel (`this === internals.Taint.none`).
The heap is modelled by giving every allocation an `allocId`; the sentinel is
the allocation with id `0`, and every `new Taint(...)` call site in the source
uses a fixed nonzero id.  Reference equality of validly allocated objects is
then id equality. -/

/-- The `details` argument of the `Taint` constructor at its call sites. -/
inductive TaintDetails where
  /-- `undefined` details (the sentinel). -/
  | noneD : TaintDetails
  /-- `{ expected, found }` of the sha taints. -/
  | sha (expected : Option String) (found : String) : TaintDetails
  /-- `{ expected: [tags] }` of the tag-missing taint. -/
  | tags (expected : List String) : TaintDetails
  deriving DecidableEq, Repr

/-- `internals.Taint`: reason and details, plus the modelled allocation id. -/
structure Taint where
  allocId : Nat
  reason : Option String
  details : TaintDetails
  deriving DecidableEq, Repr

/-- `internals.Taint.none`, the shared sentinel (allocation id `0`). -/
def Taint.none : Taint := ⟨0, Option.none, TaintDetails.noneD⟩

/-- `Taint.prototype.clean`: reference identity with the sentinel
(`this === internals.Taint.none`), i.e. allocation-id equality. -/
def Taint.clean (t : Taint) : Bool := t.allocId == 0

/-! ### ValidationError (src/lib/index.js lines 47-55) -/

/-- The options object passed to the `ValidationError` constructor at the one
call site in `check` (which passes `{ pkg, version, diff, taint }`). -/
structure VEOpts where
  pkg : Option String
  version : Option String
  diff : Option (List Char)
  taint : Option Taint

/-- What the constructor stores: it destructures only `{ pkg, version, diff }`. -/
structure VEDetails where
  pkg : Option String
  version : Option String
  diff : Option (List Char)
  deriving DecidableEq

/-- The `ValidationError` object: message plus stored details. -/
structure ValidationError where
  message : String
  details : VEDetails
  deriving DecidableEq

/-- `new internals.ValidationError(message, opts)`: stores
`this.details = { pkg, version, diff }` from the options object, dropping any
other property (in particular `taint`). -/
def mkValidationError (message : String) (opts : VEOpts) : ValidationError :=
  ⟨message, ⟨opts.pkg, opts.version, opts.diff⟩⟩

/-! ### packageHash and the integrity check
(src/lib/index.js lines 32-44 and 149-160) -/

/-- The `info.dist` fields used by `packageHash` (possibly-absent strings). -/
structure Dist where
  integrity : Option String
  shasum : Option String

/-- The `{ alg, hash }` record `packageHash` returns. -/
structure HashSpec where
  alg : String
  hash : String
  deriving DecidableEq

/-- `internals.packageHash`.  `decode` models `Buffer.from(s, 'base64')`.
With a truthy `integrity`, JS `split('-', 2)` destructured to `[alg, hash]`
takes the first two parts; when the string has no `-`, `hash` is `undefined`
and `Buffer.from(undefined, 'base64')` throws a `TypeError`.  Otherwise a
truthy legacy `shasum` is used verbatim as the expected hex hash; with
neither, `Error('No package hash')` is thrown. -/
def packageHash (decode : String → List Nat) (dist : Dist) : Except String HashSpec :=
  if jsTruthyStr dist.integrity then
    match (dist.integrity.getD "").splitOn "-" with
    | alg :: hash :: _ => Except.ok ⟨alg, hexEncode (decode hash)⟩
    | _ => Except.error "TypeError"
  else if jsTruthyStr dist.shasum then
    Except.ok ⟨"sha1", dist.shasum.getD ""⟩
  else
    Except.error "No package hash"

/-- The digest-comparison step of `fetchPackageSource` (lines 149-160):
computes the hex digest over the downloaded bytes (`hashFn` models the crypto
hash) and compares it to `packageHash(info).hash` with JS `!==` (exact string
comparison); a mismatch throws `Error('Bad package hash')`, otherwise the
function returns `Taint.none`. -/
def verifyPackageHash (decode : String → List Nat) (hashFn : List Nat → List Nat)
    (dist : Dist) (bytes : List Nat) : Except String Taint :=
  match packageHash decode dist with
  | Except.error e => Except.error e
  | Except.ok ph =>
    if hexEncode (hashFn bytes) == ph.hash then Except.ok Taint.none
    else Except.error "Bad package hash"

/-- Lowercase an ASCII letter (identity on everything else). -/
def lowerChar (c : Char) : Char :=
  if 'A' ≤ c && c ≤ 'Z' then Char.ofNat (c.toNat + 32) else c

/-- Case-insensitive hex equality, the comparison the specification describes
(two hex strings equal up to letter case). -/
def hexEqIgnoreCase (a b : String) : Bool := a.data.map lowerChar == b.data.map lowerChar

/-! ### fetchGitSource (src/lib/index.js lines 163-226)

The environment records the outcome of every external `git` invocation at its
call site: `cloneV` / `cloneBare` are `some err` when the respective clone
fails, `revParse` is the stdout of `git rev-parse --verify HEAD` or its error,
and the six `fb*` fields are the outcomes of the fallback-by-sha steps. -/

structure GitEnv where
  version : String
  gitHead : Option String
  isGithub : Bool
  cloneV : Option String
  cloneBare : Option String
  revParse : Except String String
  fbRm : Option String
  fbMkdir : Option String
  fbInit : Option String
  fbRemote : Option String
  fbFetch : Option String
  fbCheckout : Option String

/-- The nested clone attempt (lines 186-198): clone at `"v" + version`; on
failure retry at the bare `version`; if the retry also fails, the retry's
error is ignored and the original error is rethrown. -/
def cloneStep (env : GitEnv) : Except String Unit :=
  match env.cloneV with
  | Option.none => Except.ok ()
  | some err =>
    match env.cloneBare with
    | Option.none => Except.ok ()
    | some _ => Except.error err

/-- The HEAD verification (lines 200-203 and the final `return` on line 225):
`if (!gitRev || gitRev !== info.gitHead)` return a fresh taint whose reason is
`'sha-mismatch'` when `info.gitHead` is truthy and `'sha-missing'` otherwise,
with details `{ expected: info.gitHead, found: gitRev }`; else `Taint.none`. -/
def verifyHead (gitHead : Option String) (gitRev : String) : Taint :=
  if gitRev == "" || !(gitHead == some gitRev) then
    Taint.mk 1
      (some (if jsTruthyStr gitHead then "sha-mismatch" else "sha-missing"))
      (TaintDetails.sha gitHead gitRev)
  else
    Taint.none

/-- The fallback-by-sha body (lines 212-220): `rm -rf`, `mkdir`, `git init`,
`git remote add`, `git fetch --depth 1 origin gitHead`, `git checkout
FETCH_HEAD`, run in order; the first failing step's own error propagates
(there is no surrounding handler inside the catch block). -/
def fallbackRun (env : GitEnv) : Except String Unit :=
  match env.fbRm with
  | some e => Except.error e
  | Option.none =>
  match env.fbMkdir with
  | some e => Except.error e
  | Option.none =>
  match env.fbInit with
  | some e => Except.error e
  | Option.none =>
  match env.fbRemote with
  | some e => Except.error e
  | Option.none =>
  match env.fbFetch with
  | some e => Except.error e
  | Option.none =>
  match env.fbCheckout with
  | some e => Except.error e
  | Option.none => Except.ok ()

/-- The body of the outer `try` (lines 185-204 plus the trailing
`return internals.Taint.none`): clone, then rev-parse (output trimmed), then
head verification. -/
def tryBody (env : GitEnv) : Except String Taint :=
  match cloneStep env with
  | Except.error e => Except.error e
  | Except.ok _ =>
    match env.revParse with
    | Except.error e => Except.error e
    | Except.ok out => Except.ok (verifyHead env.gitHead (jsTrimS out))

/-- `fetchGitSource` (lines 163-226).  A failure inside the outer try reaches
the catch block: when the host is not github or `gitHead` is falsy the caught
error is rethrown; otherwise the fallback-by-sha runs, yielding the
`'tag-missing'` taint on success and propagating the failing step's own error
otherwise. -/
def fetchGitSource (env : GitEnv) : Except String Taint :=
  match tryBody env with
  | Except.ok t => Except.ok t
  | Except.error err =>
    if !env.isGithub || !(jsTruthyStr env.gitHead) then Except.error err
    else
      match fallbackRun env with
      | Except.error e => Except.error e
      | Except.ok _ =>
        Except.ok (Taint.mk 2 (some "tag-missing")
          (TaintDetails.tags ["v" ++ env.version, env.version]))

/-! ### The diff reconciliation step of check (src/lib/index.js lines 247-268)

`diff -r -u --strip-trailing-cr git package` is run; the environment supplies
its exit code and captured stdout.  Exit 0 resolves normally; otherwise the
error object carries `code` and `stdout`. -/

/-- The prefix the filter tests: `line.startsWith('Only in git')`. -/
def onlyInGitP : List Char := chars ("Only in git")

/-- The diff lines surviving the filter
(`lines.filter((line) => !line.startsWith('Only in git'))`). -/
def filteredLines (stdout : List Char) : List (List Char) :=
  (jsSplit '\n' stdout).filter (fun l => !(onlyInGitP.isPrefixOf l))

/-- `filtered.join('\n').trim()` — the diff text kept after filtering. -/
def filterDiff (stdout : List Char) : List Char :=
  jsTrim (jsJoin '\n' (filteredLines stdout))

/-- Outcome of the diff step inside `check`. -/
inductive DiffOutcome where
  /-- no content divergence: the git taint is returned unchanged -/
  | ok (t : Taint) : DiffOutcome
  /-- non-empty filtered diff: `ValidationError('Mismatch', ...)` is thrown,
  with the filtered diff text and the in-effect taint at that point -/
  | mismatch (diff : List Char) (t : Taint) : DiffOutcome
  /-- the caught exec error is rethrown -/
  | fatal (code : Nat) (stdout : List Char) : DiffOutcome
  deriving DecidableEq

/-- The diff handling of `check` (lines 247-268): exit 0 returns the git
taint; exit 1 or 2 with truthy stdout filters out `Only in git` lines, joins
and trims, returning the taint when the remainder is empty and a mismatch
carrying the remainder otherwise; any other caught error is rethrown. -/
def diffStep (code : Nat) (stdout : List Char) (git : Taint) : DiffOutcome :=
  if code = 0 then DiffOutcome.ok git
  else if (code == 1 || code == 2) && !stdout.isEmpty then
    let d := filterDiff stdout
    if d.isEmpty then DiffOutcome.ok git else DiffOutcome.mismatch d git
  else DiffOutcome.fatal code stdout

/-! ### check (src/lib/index.js lines 228-273) -/

/-- Filesystem / process effects `check` performs, for the cleanup claim. -/
inductive Eff where
  | mkdir (p : String) : Eff
  | fetchPkg (dst : String) : Eff
  | fetchGit (dst : String) : Eff
  | runDiff : Eff
  | rmrf (p : String) : Eff
  deriving DecidableEq

/-- Errors `check` can complete with. -/
inductive CheckError where
  /-- `fetchDetails` threw -/
  | detailsFailed : CheckError
  /-- one of the two concurrent branches rejected (`Promise.all`) -/
  | branchFailed (e : String) : CheckError
  /-- the thrown `ValidationError('Mismatch', ...)` -/
  | mismatch (e : ValidationError) : CheckError
  /-- the diff exec error was rethrown -/
  | toolFailed (code : Nat) (stdout : List Char) : CheckError
  deriving DecidableEq

/-- Environment of one `check()` call: the package version, whether
`fetchDetails` succeeds, the integrity-check inputs of the artifact branch,
the git branch environment, and the diff tool outcome. -/
structure CheckEnv where
  version : String
  detailsOk : Bool
  decode : String → List Nat
  hashFn : List Nat → List Nat
  dist : Dist
  bytes : List Nat
  git : GitEnv
  diffCode : Nat
  diffStdout : List Char

/-- The `try` body of `check` (lines 236-269), with its effect trace.  `tmp`
is the scratch directory name.  When both branches succeed the diff runs and
a non-empty filtered diff throws
`ValidationError('Mismatch', { pkg: this.pkg, version, diff, taint })` —
note `this.pkg` is `undefined` (the constructor sets `this.package`).
`Promise.all` is modelled as reporting the artifact branch's rejection first
when both reject (the claims do not depend on which). -/
def checkBody (tmp : String) (env : CheckEnv) : Except CheckError Taint × List Eff :=
  if !env.detailsOk then (Except.error CheckError.detailsFailed, [])
  else
    let effs := [Eff.fetchPkg (tmp ++ "/package"), Eff.fetchGit (tmp ++ "/git")]
    match verifyPackageHash env.decode env.hashFn env.dist env.bytes, fetchGitSource env.git with
    | Except.error e, _ => (Except.error (CheckError.branchFailed e), effs)
    | Except.ok _, Except.error e => (Except.error (CheckError.branchFailed e), effs)
    | Except.ok _, Except.ok git =>
      let effs := effs ++ [Eff.runDiff]
      match diffStep env.diffCode env.diffStdout git with
      | DiffOutcome.ok t => (Except.ok t, effs)
      | DiffOutcome.mismatch d t =>
        (Except.error (CheckError.mismatch
          (mkValidationError "Mismatch" ⟨Option.none, some env.version, some d, some t⟩)), effs)
      | DiffOutcome.fatal c o => (Except.error (CheckError.toolFailed c o), effs)

/-- The full `check` call: `mkdir(tmpDir)` first, then the try body, then the
`finally` clause removes the scratch directory on every path. -/
def check (tmp : String) (env : CheckEnv) : Except CheckError Taint × List Eff :=
  ((checkBody tmp env).1, Eff.mkdir tmp :: (checkBody tmp env).2 ++ [Eff.rmrf tmp])

/-- Modelled external collaborator `Hoek.uniqueFilename(Os.tmpdir())`: yields
a distinct scratch path per call index (its contract: a unique name per
call). -/
def uniqueFilename (k : Nat) : String := String.mk (List.replicate (k + 1) 'x')

/-! ### The dependency walker (src/bin/validate lines 38-109)

`results` is the memo `Map`; `results.set(k, undefined)` marks `k` pending, so
a memo value is `Option Taint` with `Option.none` as the pending marker.  The
map is modelled as an association list whose first match wins (`mset`
prepends, which has the same lookup semantics as `Map.set`).  The external
`Validator` collaborator is an environment: `resolve` models
`validator.fetchDetails()` (`Option.none` = throws) and `runCheck` models
`validator.check()` (`Option.none` = throws).  The walk is sequential (the
loop awaits each dependency), so memo mutations interleave exactly as the
model sequences them. -/

/-- The registry record fields the walker uses. -/
structure PkgInfo where
  name : String
  version : String
  dependencies : List (String × String)
  deriving DecidableEq

/-- Outcomes of the external `Validator` collaborator calls. -/
structure WEnv where
  resolve : String → String → Option PkgInfo
  runCheck : String → String → Option Taint

/-- The memo `Map`: value `Option.none` is the `pending` marker. -/
abbrev Memo := List (String × Option Taint)

/-- `results.has(k)` / `results.get(k)` combined: `Option.none` when absent,
`some v` when present with value `v` (`v = Option.none` meaning pending). -/
def mlookup (m : Memo) (k : String) : Option (Option Taint) :=
  match m.find? (fun e => e.1 == k) with
  | Option.none => Option.none
  | some e => some e.2

/-- `results.set(k, v)`. -/
def mset (m : Memo) (k : String) (v : Option Taint) : Memo := (k, v) :: m

/-- The record `validatePkg` returns: `result` may be `undefined`
(pending-entry hit or error path), `info` is set only where the source sets
it in the returned object. -/
structure VPRet where
  result : Option Taint
  info : Option PkgInfo
  deriving DecidableEq

/-- `validatePkg` (src/bin/validate lines 53-85), threading the memo and
recording each `validator.check()` invocation's resolved-version key.
Paths: query-key hit (returns the stored value, no `info`); query key marked
pending, then resolve failure (caught, `info` undefined); resolved-version-key
hit (returns the stored value, no `info`); version key marked pending, then
`check()` throwing (caught, `info` returned) or succeeding (both keys set to
the outcome). -/
def validatePkg (env : WEnv) (memo : Memo) (pkg version : String) :
    VPRet × Memo × List String :=
  let queryKey := pkg ++ "@" ++ version
  match mlookup memo queryKey with
  | some v => (⟨v, Option.none⟩, memo, [])
  | Option.none =>
    let memo1 := mset memo queryKey Option.none
    match env.resolve pkg version with
    | Option.none => (⟨Option.none, Option.none⟩, memo1, [])
    | some info =>
      let versionKey := pkg ++ "@" ++ info.version
      match mlookup memo1 versionKey with
      | some v => (⟨v, Option.none⟩, memo1, [])
      | Option.none =>
        let memo2 := mset memo1 versionKey Option.none
        match env.runCheck pkg info.version with
        | Option.none => (⟨Option.none, some info⟩, memo2, [versionKey])
        | some result =>
          (⟨some result, some info⟩,
            mset (mset memo2 versionKey (some result)) queryKey (some result),
            [versionKey])

/-- `let tainted = !result || !result.clean()` (line 98). -/
def taintedOf : Option Taint → Bool
  | Option.none => true
  | some t => !t.clean

/-- The dependency loop of `validate` (lines 100-106): each dependency is
awaited in order, and `tainted = tainted || !ok` accumulates. -/
def validateDeps (step : Memo → String → String → Bool × Memo × List String) :
    Memo → List (String × String) → Bool × Memo × List String
  | memo, [] => (true, memo, [])
  | memo, d :: ds =>
    let r1 := step memo d.1 d.2
    let r2 := validateDeps step r1.2.1 ds
    (r1.1 && r2.1, r2.2.1, r1.2.2 ++ r2.2.2)

/-- `validate` (src/bin/validate lines 87-109): runs `validatePkg`, computes
`tainted`, and when `recursive` and `info` is present walks the declared
dependencies; the result is `!tainted`.  `fuel` bounds the recursion depth
(the source recurses directly; every claim is settled at sufficient fuel). -/
def validate (env : WEnv) (recursive : Bool) : Nat → Memo → String → String →
    Bool × Memo × List String
  | 0, memo, _, _ => (false, memo, [])
  | Nat.succ fuel, memo, pkg, version =>
    let r := validatePkg env memo pkg version
    let t0 := taintedOf r.1.result
    match r.1.info with
    | Option.none => (!t0, r.2.1, r.2.2)
    | some info =>
      if recursive then
        let rd := validateDeps (validate env recursive fuel) r.2.1 info.dependencies
        (!t0 && rd.1, rd.2.1, r.2.2 ++ rd.2.2)
      else (!t0, r.2.1, r.2.2)

/-- Relation between the memo before a walker step, the memo after, and the
trace of resolved-version keys whose `check()` the step invoked: the trace has
no duplicates, its keys were absent before and are present after, and the
step only ever adds memo keys. -/
def StepOK (m m2 : Memo) (tr : List String) : Prop :=
  tr.Nodup ∧ (∀ k ∈ tr, mlookup m k = Option.none) ∧
  (∀ k ∈ tr, (mlookup m2 k).isSome = true) ∧
  (∀ k, (mlookup m k).isSome = true → (mlookup m2 k).isSome = true)

/-! ### Concrete environments used to instantiate the claims -/

/-- A registry whose packages `A` and `B` depend on each other (a dependency
cycle `A → B → A`), every `check()` reporting the clean outcome. -/
def envC : WEnv :=
  { resolve := fun p _ =>
      if p == "A" then some ⟨"A", "1.0.0", [("B", "sB")]⟩
      else if p == "B" then some ⟨"B", "1.0.0", [("A", "sA")]⟩
      else Option.none
  , runCheck := fun _ _ => some Taint.none }

/-- A diamond dependency: `A` depends on `B` and `C`, which both depend on
`D` via the distinct version specifiers `s1` and `s2`, both resolving to
`D@1.0.0`. -/
def envD : WEnv :=
  { resolve := fun p _ =>
      if p == "A" then some ⟨"A", "1.0.0", [("B", "sB"), ("C", "sC")]⟩
      else if p == "B" then some ⟨"B", "1.0.0", [("D", "s1")]⟩
      else if p == "C" then some ⟨"C", "1.0.0", [("D", "s2")]⟩
      else if p == "D" then some ⟨"D", "1.0.0", []⟩
      else Option.none
  , runCheck := fun _ _ => some Taint.none }

/-- A walker environment where `fetchDetails` always throws. -/
def envF : WEnv := { resolve := fun _ _ => Option.none, runCheck := fun _ _ => Option.none }

/-- A walker environment resolving `a` (any specifier) to `a@1` with no
dependencies, with a clean check. -/
def envW8 : WEnv :=
  { resolve := fun p _ => if p == "a" then some ⟨"a", "1", []⟩ else Option.none
  , runCheck := fun _ _ => some Taint.none }

/-- A git environment where both tag clones fail (`e1` the v-tag error, `e2`
the bare-tag error), the host is github, `gitHead` is present, and the
fallback's `git fetch` step fails with its own error `e3`. -/
def env0 : GitEnv :=
  { version := "1.0.0", gitHead := some "h", isGithub := true
  , cloneV := some "e1", cloneBare := some "e2", revParse := Except.ok "h"
  , fbRm := Option.none, fbMkdir := Option.none, fbInit := Option.none
  , fbRemote := Option.none, fbFetch := some "e3", fbCheckout := Option.none }

/-- Like `env0` but on an unrecognized host, so the fallback is skipped. -/
def envG6 : GitEnv := { env0 with isGithub := false }

/-- A git environment where the v-tag clone succeeds and HEAD reads back an
empty `gitHead`-less sha. -/
def envG10 : GitEnv :=
  { version := "1.0.0", gitHead := Option.none, isGithub := false
  , cloneV := Option.none, cloneBare := Option.none, revParse := Except.ok "h"
  , fbRm := Option.none, fbMkdir := Option.none, fbInit := Option.none
  , fbRemote := Option.none, fbFetch := Option.none, fbCheckout := Option.none }

/-- A check environment whose branches all succeed and whose diff exits 0. -/
def cenvEx : CheckEnv :=
  { version := "1.0.0", detailsOk := true, decode := fun _ => [], hashFn := fun b => b
  , dist := ⟨Option.none, some (hexEncode [171])⟩, bytes := [171]
  , git := envG10, diffCode := 0, diffStdout := [] }

/-! ## Helper lemmas -/

/-- Every taint `verifyHead` yields is the sentinel or reports non-clean. -/
theorem verifyHead_clean_cases (gitHead : Option String) (rev : String) :
    verifyHead gitHead rev = Taint.none ∨ (verifyHead gitHead rev).clean = false := by
  unfold verifyHead
  split
  · right; rfl
  · left; rfl

/-- The last element of `x :: l ++ [a]` is `a`. -/
theorem getLast_cons_concat {α : Type} (x a : α) (l : List α) :
    (x :: l ++ [a]).getLast? = some a := by
  exact List.getLast?_concat _

/-- Lookup after setting the same key. -/
theorem mlookup_mset_self (m : Memo) (k : String) (v : Option Taint) :
    mlookup (mset m k v) k = some v := by
  unfold mlookup mset
  rw [List.find?_cons_of_pos]
  simp

/-- Lookup after setting a different key. -/
theorem mlookup_mset_ne (m : Memo) (k k2 : String) (v : Option Taint) (h : ¬(k = k2)) :
    mlookup (mset m k v) k2 = mlookup m k2 := by
  unfold mlookup mset
  rw [List.find?_cons_of_neg]
  simp [h]

/-- `mset` preserves key presence. -/
theorem mlookup_mset_isSome (m : Memo) (k k2 : String) (v : Option Taint)
    (h : (mlookup m k2).isSome = true) : (mlookup (mset m k v) k2).isSome = true := by
  by_cases he : k = k2
  · subst he
    rw [mlookup_mset_self]
    rfl
  · rw [mlookup_mset_ne m k k2 v he]
    exact h

/-- A line starting with `Only in package` does not start with `Only in git`. -/
theorem onlyInGit_conflict_pkg (l : List Char)
    (h : (chars ("Only in package")).isPrefixOf l = true) :
    onlyInGitP.isPrefixOf l = false := by
  rw [List.isPrefixOf_iff_prefix] at h
  obtain ⟨t, ht⟩ := h
  subst ht
  have e1 : chars ("Only in package")
      = ['O','n','l','y',' ','i','n',' ','p','a','c','k','a','g','e'] := rfl
  have e2 : onlyInGitP = ['O','n','l','y',' ','i','n',' ','g','i','t'] := rfl
  rw [e1, e2]
  simp [List.isPrefixOf]

/-- A line starting with `diff ` does not start with `Only in git`. -/
theorem onlyInGit_conflict_diff (l : List Char)
    (h : (chars ("diff ")).isPrefixOf l = true) :
    onlyInGitP.isPrefixOf l = false := by
  rw [List.isPrefixOf_iff_prefix] at h
  obtain ⟨t, ht⟩ := h
  subst ht
  have e1 : chars ("diff ") = ['d','i','f','f',' '] := rfl
  have e2 : onlyInGitP = ['O','n','l','y',' ','i','n',' ','g','i','t'] := rfl
  rw [e1, e2]
  simp [List.isPrefixOf]

/-- A character of a member line is a character of the joined text. -/
theorem mem_jsJoin (sep : Char) (xs : List (List Char)) (x : List Char)
    (hx : x ∈ xs) (c : Char) (hc : c ∈ x) : c ∈ jsJoin sep xs := by
  induction xs with
  | nil => cases hx
  | cons a as ih =>
    cases as with
    | nil =>
      rw [List.mem_singleton] at hx
      subst hx
      simpa [jsJoin] using hc
    | cons b bs =>
      rcases List.mem_cons.mp hx with h1 | h2
      · subst h1
        exact List.mem_append_left _ hc
      · exact List.mem_append_right _ (List.mem_cons_of_mem _ (ih h2))

/-- A non-whitespace member survives `dropWhile isWs`. -/
theorem mem_dropWhile_of_not_ws (s : List Char) (c : Char) (hc : c ∈ s)
    (hw : isWs c = false) : c ∈ s.dropWhile isWs := by
  induction s with
  | nil => cases hc
  | cons a t ih =>
    rw [List.dropWhile_cons]
    by_cases ha : isWs a = true
    · rw [if_pos ha]
      rcases List.mem_cons.mp hc with h1 | h2
      · subst h1
        rw [ha] at hw
        cases hw
      · exact ih h2
    · rw [if_neg ha]
      exact hc

/-- A list with a non-whitespace character does not trim to empty. -/
theorem jsTrim_ne_nil (s : List Char) (c : Char) (hc : c ∈ s) (hw : isWs c = false) :
    jsTrim s ≠ [] := by
  unfold jsTrim
  have h1 := mem_dropWhile_of_not_ws s c hc hw
  have h2 : c ∈ (s.dropWhile isWs).reverse := List.mem_reverse.mpr h1
  have h3 := mem_dropWhile_of_not_ws _ c h2 hw
  have h4 : c ∈ ((s.dropWhile isWs).reverse.dropWhile isWs).reverse :=
    List.mem_reverse.mpr h3
  exact List.ne_nil_of_mem h4

theorem stepOK_nil (m : Memo) : StepOK m m [] :=
  ⟨List.nodup_nil, by simp, by simp, fun _ h => h⟩

theorem stepOK_comp {m m1 m2 : Memo} {t1 t2 : List String}
    (h1 : StepOK m m1 t1) (h2 : StepOK m1 m2 t2) : StepOK m m2 (t1 ++ t2) := by
  obtain ⟨n1, f1, r1, mono1⟩ := h1
  obtain ⟨n2, f2, r2, mono2⟩ := h2
  refine ⟨?_, ?_, ?_, fun k h => mono2 k (mono1 k h)⟩
  · rw [List.nodup_append]
    refine ⟨n1, n2, ?_⟩
    intro a ha hb
    have hrec := r1 a ha
    have hfr := f2 a hb
    rw [hfr] at hrec
    simp at hrec
  · intro k hk
    rcases List.mem_append.mp hk with h | h
    · exact f1 k h
    · cases hm : mlookup m k with
      | none => rfl
      | some x =>
        have h5 := mono1 k (by rw [hm]; rfl)
        rw [f2 k h] at h5
        simp at h5
  · intro k hk
    rcases List.mem_append.mp hk with h | h
    · exact mono2 k (r1 k h)
    · exact r2 k h

theorem validatePkg_stepOK (env : WEnv) (memo : Memo) (p v : String) :
    StepOK memo (validatePkg env memo p v).2.1 (validatePkg env memo p v).2.2 := by
  cases hq : mlookup memo (p ++ "@" ++ v) with
  | some x =>
    simp only [validatePkg, hq]
    exact stepOK_nil memo
  | none =>
    cases hr : env.resolve p v with
    | none =>
      simp only [validatePkg, hq, hr]
      exact ⟨List.nodup_nil, by simp, by simp, fun k h => mlookup_mset_isSome _ _ _ _ h⟩
    | some info =>
      cases hv : mlookup (mset memo (p ++ "@" ++ v) Option.none)
          (p ++ "@" ++ info.version) with
      | some x =>
        simp only [validatePkg, hq, hr, hv]
        exact ⟨List.nodup_nil, by simp, by simp, fun k h => mlookup_mset_isSome _ _ _ _ h⟩
      | none =>
        have hvk_ne : ¬(p ++ "@" ++ v = p ++ "@" ++ info.version) := by
          intro he
          rw [← he, mlookup_mset_self] at hv
          cases hv
        have hfresh : mlookup memo (p ++ "@" ++ info.version) = Option.none := by
          rw [mlookup_mset_ne _ _ _ _ hvk_ne] at hv
          exact hv
        cases hc : env.runCheck p info.version with
        | none =>
          simp only [validatePkg, hq, hr, hv, hc]
          refine ⟨List.nodup_singleton _, ?_, ?_, ?_⟩
          · intro k hk
            rw [List.mem_singleton] at hk
            subst hk
            exact hfresh
          · intro k hk
            rw [List.mem_singleton] at hk
            subst hk
            rw [mlookup_mset_self]
            rfl
          · intro k h
            exact mlookup_mset_isSome _ _ _ _ (mlookup_mset_isSome _ _ _ _ h)
        | some r =>
          simp only [validatePkg, hq, hr, hv, hc]
          refine ⟨List.nodup_singleton _, ?_, ?_, ?_⟩
          · intro k hk
            rw [List.mem_singleton] at hk
            subst hk
            exact hfresh
          · intro k hk
            rw [List.mem_singleton] at hk
            subst hk
            rw [mlookup_mset_ne _ _ _ _ hvk_ne, mlookup_mset_self]
            rfl
          · intro k h
            exact mlookup_mset_isSome _ _ _ _ (mlookup_mset_isSome _ _ _ _
              (mlookup_mset_isSome _ _ _ _ (mlookup_mset_isSome _ _ _ _ h)))

theorem validateDeps_stepOK (step : Memo → String → String → Bool × Memo × List String)
    (hstep : ∀ m p v, StepOK m (step m p v).2.1 (step m p v).2.2) :
    ∀ (ds : List (String × String)) (m : Memo),
      StepOK m (validateDeps step m ds).2.1 (validateDeps step m ds).2.2 := by
  intro ds
  induction ds with
  | nil =>
    intro m
    simp only [validateDeps]
    exact stepOK_nil m
  | cons d tl ih =>
    intro m
    simp only [validateDeps]
    exact stepOK_comp (hstep m d.1 d.2) (ih _)

theorem validate_stepOK (env : WEnv) (recursive : Bool) :
    ∀ (fuel : Nat) (memo : Memo) (p v : String),
      StepOK memo (validate env recursive fuel memo p v).2.1
        (validate env recursive fuel memo p v).2.2 := by
  intro fuel
  induction fuel with
  | zero =>
    intro memo p v
    simp only [validate]
    exact stepOK_nil memo
  | succ f ih =>
    intro memo p v
    simp only [validate]
    cases hinfo : (validatePkg env memo p v).1.info with
    | none =>
      simp only [hinfo]
      exact validatePkg_stepOK env memo p v
    | some info =>
      simp only [hinfo]
      split
      · exact stepOK_comp (validatePkg_stepOK env memo p v)
          (validateDeps_stepOK _ (fun m p2 v2 => ih m p2 v2) info.dependencies _)
      · exact validatePkg_stepOK env memo p v

theorem tainted_none_eval : taintedOf (some Taint.none) = false := rfl

theorem cyc_lvl2 (f : Nat) (m : Memo)
    (h1 : mlookup m "B@sB" = Option.none)
    (h2 : mlookup m "B@1.0.0" = Option.none)
    (h3 : mlookup m "A@sA" = some (some Taint.none)) :
    validate envC true (f + 2) m "B" "sB"
      = (true,
         mset (mset (mset (mset m "B@sB" Option.none) "B@1.0.0" Option.none)
           "B@1.0.0" (some Taint.none)) "B@sB" (some Taint.none),
         ["B@1.0.0"]) := by
  have h2' : mlookup (mset m "B@sB" Option.none) "B@1.0.0" = Option.none := by
    rw [mlookup_mset_ne _ _ _ _ (by decide)]
    exact h2
  have hA1 : mlookup (mset (mset (mset (mset m "B@sB" Option.none) "B@1.0.0"
      Option.none) "B@1.0.0" (some Taint.none)) "B@sB" (some Taint.none)) "A@sA"
      = some (some Taint.none) := by
    rw [mlookup_mset_ne _ _ _ _ (by decide), mlookup_mset_ne _ _ _ _ (by decide),
        mlookup_mset_ne _ _ _ _ (by decide), mlookup_mset_ne _ _ _ _ (by decide)]
    exact h3
  have hres : envC.resolve "B" "sB" = some ⟨"B", "1.0.0", [("A", "sA")]⟩ := rfl
  have hrc : envC.runCheck "B" "1.0.0" = some Taint.none := rfl
  show validate envC true (Nat.succ (f + 1)) m "B" "sB" = _
  simp [validate, validatePkg, validateDeps, h1, h2', hA1, hres, hrc,
    tainted_none_eval]

theorem cyc_top (n : Nat) :
    validate envC true (n + 3) [] "A" "sA"
      = (true,
         mset (mset (mset (mset
           [("A@sA", some Taint.none), ("A@1.0.0", some Taint.none),
            ("A@1.0.0", Option.none), ("A@sA", Option.none)]
           "B@sB" Option.none) "B@1.0.0" Option.none)
           "B@1.0.0" (some Taint.none)) "B@sB"
           (some Taint.none),
         ["A@1.0.0", "B@1.0.0"]) := by
  have hA : validatePkg envC [] "A" "sA"
      = (⟨some Taint.none, some ⟨"A", "1.0.0", [("B", "sB")]⟩⟩,
         [("A@sA", some Taint.none), ("A@1.0.0", some Taint.none),
          ("A@1.0.0", Option.none), ("A@sA", Option.none)], ["A@1.0.0"]) := rfl
  have key : ∀ F : Nat,
      validate envC true F
          [("A@sA", some Taint.none), ("A@1.0.0", some Taint.none),
           ("A@1.0.0", Option.none), ("A@sA", Option.none)] "B" "sB"
        = (true,
           mset (mset (mset (mset
             [("A@sA", some Taint.none), ("A@1.0.0", some Taint.none),
              ("A@1.0.0", Option.none), ("A@sA", Option.none)]
             "B@sB" Option.none) "B@1.0.0" Option.none)
             "B@1.0.0" (some Taint.none)) "B@sB" (some Taint.none),
           ["B@1.0.0"]) →
      validate envC true (Nat.succ F) [] "A" "sA"
        = (true,
           mset (mset (mset (mset
             [("A@sA", some Taint.none), ("A@1.0.0", some Taint.none),
              ("A@1.0.0", Option.none), ("A@sA", Option.none)]
             "B@sB" Option.none) "B@1.0.0" Option.none)
             "B@1.0.0" (some Taint.none)) "B@sB" (some Taint.none),
           ["A@1.0.0", "B@1.0.0"]) := by
    intro F hB
    simp [validate, validateDeps, hA, hB, tainted_none_eval]
  exact key (n + 2) (cyc_lvl2 n _ rfl rfl rfl)

/-! ## Claim theorems -/

/-- C1, counterexample: with a legacy uppercase shasum `"AB"` and downloaded
bytes whose hex digest is `"ab"`, the digests are hex-equal up to letter case,
yet the check does not pass: `fetchPackageSource` throws
`Error('Bad package hash')`.  The comparison in the code is JS `!==` on the
exact strings, not a case-insensitive compare. -/
theorem c1_counterexample :
    hexEqIgnoreCase (hexEncode ((fun (b : List Nat) => b) [171])) "AB" = true ∧
    verifyPackageHash (fun _ => []) (fun b => b) ⟨Option.none, some "AB"⟩ [171]
      = Except.error "Bad package hash" := by
  exact ⟨by decide, rfl⟩

/-- C1, amended: for every artifact, the hex digest computed over the exact
downloaded bytes is compared to the expected hash from `packageHash` using
exact (case-sensitive) string equality: the check passes, returning
`Taint.none`, exactly when the strings are equal, and any mismatch (in
particular any byte alteration that changes the digest) makes
`fetchPackageSource` fail with the fatal `Bad package hash` error rather than
return a taint. -/
theorem c1_integrity_exact_compare :
    ∀ (decode : String → List Nat) (hashFn : List Nat → List Nat) (dist : Dist)
      (bytes : List Nat) (ph : HashSpec),
      packageHash decode dist = Except.ok ph →
      (verifyPackageHash decode hashFn dist bytes = Except.ok Taint.none ↔
        hexEncode (hashFn bytes) = ph.hash) ∧
      (hexEncode (hashFn bytes) ≠ ph.hash →
        verifyPackageHash decode hashFn dist bytes = Except.error "Bad package hash") := by
  intro decode hashFn dist bytes ph hph
  unfold verifyPackageHash
  rw [hph]
  by_cases he : hexEncode (hashFn bytes) = ph.hash <;> simp [he]

/-- C1, witness: a matching lowercase shasum passes and yields `Taint.none`. -/
theorem c1_integrity_exact_compare_witness :
    verifyPackageHash (fun _ => []) (fun b => b) ⟨Option.none, some "ab"⟩ [171]
      = Except.ok Taint.none :=
  ((c1_integrity_exact_compare (fun _ => []) (fun b => b) ⟨Option.none, some "ab"⟩
      [171] ⟨"sha1", "ab"⟩ rfl).1).mpr (by decide)

/-- C2: after a successful tag-based clone, reading the checked-out HEAD
commit yields exactly one of three terminal outcomes: a present (truthy)
`gitHead` equal to the sha gives `Taint.none`; a present `gitHead` different
from the sha gives the `sha-mismatch` taint carrying expected and found; an
absent (JS-falsy) `gitHead` gives the `sha-missing` taint carrying the found
commit.  The last conjunct grounds this in `fetchGitSource`: when the clone
phase and `rev-parse` succeed, the function returns exactly this outcome. -/
theorem c2_verify_head :
    (∀ (gitHead : Option String) (rev : String),
      (jsTruthyStr gitHead = true → gitHead = some rev →
        verifyHead gitHead rev = Taint.none) ∧
      (jsTruthyStr gitHead = true → gitHead ≠ some rev →
        verifyHead gitHead rev
          = Taint.mk 1 (some "sha-mismatch") (TaintDetails.sha gitHead rev)) ∧
      (jsTruthyStr gitHead = false →
        verifyHead gitHead rev
          = Taint.mk 1 (some "sha-missing") (TaintDetails.sha gitHead rev))) ∧
    (∀ (env : GitEnv) (out : String),
      cloneStep env = Except.ok () → env.revParse = Except.ok out →
      fetchGitSource env = Except.ok (verifyHead env.gitHead (jsTrimS out))) := by
  constructor
  · intro gitHead rev
    refine ⟨?_, ?_, ?_⟩
    · intro ht he
      subst he
      simp only [jsTruthyStr] at ht
      simp at ht
      simp [verifyHead, ht]
    · intro ht hne
      simp [verifyHead, hne, ht]
    · intro ht
      cases gitHead with
      | none => simp [verifyHead, jsTruthyStr]
      | some s =>
        simp only [jsTruthyStr] at ht
        simp at ht
        subst ht
        by_cases hr : rev = ""
        · simp [verifyHead, hr, jsTruthyStr]
        · have hr2 : ¬("" = rev) := fun h => hr h.symm
          simp [verifyHead, hr, hr2, jsTruthyStr]
  · intro env out h1 h2
    simp [fetchGitSource, tryBody, h1, h2]

/-- C2, witness: a truthy `gitHead` matching the read sha is clean. -/
theorem c2_verify_head_witness :
    verifyHead (some "h") "h" = Taint.none :=
  (c2_verify_head.1 (some "h") "h").1 (by decide) rfl

/-- C3 (code bug): the `ValidationError` constructor destructures only
`{ pkg, version, diff }` from its options object, so the `taint: git` the
`check` call site passes is silently dropped: the constructed error is
identical whatever taint (or none) is supplied, and its details do not carry
the taint. -/
theorem c3_taint_dropped :
    ∀ (m : String) (o : VEOpts) (t : Option Taint),
      mkValidationError m ⟨o.pkg, o.version, o.diff, t⟩ = mkValidationError m o := by
  intro m o t
  rfl

/-- C5, counterexample: with both tag clones failing (v-tag error `e1`), a
recognized host and a present `gitHead`, a failing fallback `git fetch` step
(error `e3`) makes `fetchGitSource` propagate `e3` — not the original
CloneVTag error `e1` as the claim states. -/
theorem c5_counterexample :
    fetchGitSource env0 = Except.error "e3" ∧
    (Except.error "e3" : Except String Taint) ≠ Except.error "e1" := by
  refine ⟨rfl, by simp⟩

/-- C5, amended: whenever the fallback-by-sha path is entered and one of its
steps fails, the error propagated to the caller is that failing step's own
error (there is no handler re-raising the original CloneVTag error). -/
theorem c5_fallback_error_propagation :
    ∀ (env : GitEnv) (e f : String),
      tryBody env = Except.error e → env.isGithub = true →
      jsTruthyStr env.gitHead = true → fallbackRun env = Except.error f →
      fetchGitSource env = Except.error f := by
  intro env e f htb hgh hth hfb
  simp [fetchGitSource, htb, hgh, hth, hfb]

/-- C5, witness: `env0` enters the fallback and its fetch step fails with
`e3`, which is what the caller sees. -/
theorem c5_fallback_error_propagation_witness :
    fetchGitSource env0 = Except.error "e3" :=
  c5_fallback_error_propagation env0 "e1" "e3" rfl rfl (by decide) rfl

/-- C6: when the clone at `"v" + version` fails with `e` and the bare-ref
clone also fails, the error leaving the clone phase is the original `e` (the
bare attempt's own error is discarded), and when additionally the host is not
github or `gitHead` is absent, `fetchGitSource` throws exactly `e` with no
fallback attempted. -/
theorem c6_original_clone_error :
    ∀ (env : GitEnv) (e eb : String),
      env.cloneV = some e → env.cloneBare = some eb →
      cloneStep env = Except.error e ∧
      ((env.isGithub = false ∨ jsTruthyStr env.gitHead = false) →
        fetchGitSource env = Except.error e) := by
  intro env e eb hv hb
  have hc : cloneStep env = Except.error e := by simp [cloneStep, hv, hb]
  refine ⟨hc, ?_⟩
  intro hgate
  have htb : tryBody env = Except.error e := by simp [tryBody, hc]
  rcases hgate with hg | hg <;> simp [fetchGitSource, htb, hg]

/-- C6, witness: on the unrecognized-host environment both clone errors exist
and the original `e1` is thrown. -/
theorem c6_original_clone_error_witness :
    cloneStep envG6 = Except.error "e1" ∧ fetchGitSource envG6 = Except.error "e1" := by
  have h := c6_original_clone_error envG6 "e1" "e2" rfl rfl
  exact ⟨h.1, h.2 (Or.inl rfl)⟩

/-- C10: `clean()` is reference identity with the shared sentinel: for every
validly allocated taint (allocation id `0` only for the sentinel), `clean()`
holds exactly for the sentinel itself; a separately constructed `Taint` with
no reason and no details (a fresh allocation) reports `clean()` false; and
every taint `fetchGitSource` returns is the sentinel or non-clean. -/
theorem c10_taint_identity :
    (∀ t : Taint, (t.allocId = 0 → t = Taint.none) → (t.clean = true ↔ t = Taint.none)) ∧
    Taint.clean (Taint.mk 1 Option.none TaintDetails.noneD) = false ∧
    (∀ (env : GitEnv) (t : Taint), fetchGitSource env = Except.ok t →
      t = Taint.none ∨ t.clean = false) := by
  refine ⟨?_, rfl, ?_⟩
  · intro t halloc
    constructor
    · intro hcl
      simp [Taint.clean] at hcl
      exact halloc hcl
    · intro he
      subst he
      rfl
  · intro env t h
    unfold fetchGitSource at h
    cases htb : tryBody env with
    | ok t0 =>
      simp only [htb] at h
      injection h with h
      subst h
      unfold tryBody at htb
      cases hc : cloneStep env with
      | error e => simp [hc] at htb
      | ok u =>
        simp only [hc] at htb
        cases hr : env.revParse with
        | error e => simp [hr] at htb
        | ok out =>
          simp only [hr] at htb
          injection htb with htb
          rw [← htb]
          exact verifyHead_clean_cases _ _
    | error e =>
      simp only [htb] at h
      split at h
      · cases h
      · cases hf : fallbackRun env with
        | error e2 => simp [hf] at h
        | ok u =>
          simp only [hf] at h
          injection h with h
          subst h
          right
          rfl

/-- C10, witness: the sentinel is clean, and a concrete `fetchGitSource` run
returning a fresh taint reports it non-clean. -/
theorem c10_taint_identity_witness :
    Taint.clean Taint.none = true ∧
    (verifyHead Option.none (jsTrimS "h") = Taint.none ∨
      (verifyHead Option.none (jsTrimS "h")).clean = false) :=
  ⟨(c10_taint_identity.1 Taint.none (fun _ => rfl)).mpr rfl,
    c10_taint_identity.2.2 envG10 (verifyHead Option.none (jsTrimS "h")) rfl⟩

/-- C8, counterexample: when `fetchDetails` throws (here: resolution fails),
the `validatePkg` attempt completes (returning its error record), yet the
query key still holds the pending marker (`some Option.none` — present but
`undefined`), not a `ValidationOutcome`: the key is not resolved on this
completion path. -/
theorem c8_counterexample :
    mlookup (validatePkg envF [] "a" "1").2.1 ("a" ++ "@" ++ "1") = some Option.none := rfl

/-- C8, amended: the query key is marked in the memo (pending) before any
recursion begins and is present on every completion path, but it is resolved
to the `ValidationOutcome` only on the path where `check()` runs and
succeeds; on the error paths and on the resolved-version-key-hit path the
query key remains pending. -/
theorem c8_memo_key_lifecycle :
    (∀ (env : WEnv) (memo : Memo) (p v : String),
      (mlookup (validatePkg env memo p v).2.1 (p ++ "@" ++ v)).isSome = true) ∧
    (∀ (env : WEnv) (memo : Memo) (p v : String) (info : PkgInfo) (r : Taint),
      mlookup memo (p ++ "@" ++ v) = Option.none →
      env.resolve p v = some info →
      mlookup (mset memo (p ++ "@" ++ v) Option.none) (p ++ "@" ++ info.version)
        = Option.none →
      env.runCheck p info.version = some r →
      mlookup (validatePkg env memo p v).2.1 (p ++ "@" ++ v) = some (some r)) := by
  constructor
  · intro env memo p v
    cases hq : mlookup memo (p ++ "@" ++ v) with
    | some x =>
      simp only [validatePkg, hq]
      rfl
    | none =>
      cases hr : env.resolve p v with
      | none =>
        simp only [validatePkg, hq, hr]
        rw [mlookup_mset_self]
        rfl
      | some info =>
        cases hv : mlookup (mset memo (p ++ "@" ++ v) Option.none)
            (p ++ "@" ++ info.version) with
        | some x =>
          simp only [validatePkg, hq, hr, hv]
          rw [mlookup_mset_self]
          rfl
        | none =>
          cases hc : env.runCheck p info.version with
          | none =>
            simp only [validatePkg, hq, hr, hv, hc]
            exact mlookup_mset_isSome _ _ _ _ (by rw [mlookup_mset_self]; rfl)
          | some r =>
            simp only [validatePkg, hq, hr, hv, hc]
            rw [mlookup_mset_self]
            rfl
  · intro env memo p v info r h1 h2 h3 h4
    simp only [validatePkg, h1, h2, h3, h4]
    rw [mlookup_mset_self]

/-- C8, witness: a successful resolution and check resolves the query key to
the outcome. -/
theorem c8_memo_key_lifecycle_witness :
    mlookup (validatePkg envW8 [] "a" "s").2.1 ("a" ++ "@" ++ "s")
      = some (some Taint.none) :=
  c8_memo_key_lifecycle.2 envW8 [] "a" "s" ⟨"a", "1", []⟩ Taint.none rfl rfl rfl rfl

/-- C9: every `check()` call's effect trace starts by creating its scratch
directory and ends by removing that same directory — on every exit path
(success, mismatch, branch failure, diff tool failure, details failure) —
and the modelled unique-name supply never hands out the same scratch name to
two different calls. -/
theorem c9_scratch_cleanup :
    (∀ (tmp : String) (env : CheckEnv),
      ((check tmp env).2).head? = some (Eff.mkdir tmp) ∧
      ((check tmp env).2).getLast? = some (Eff.rmrf tmp)) ∧
    (∀ i j : Nat, i ≠ j → uniqueFilename i ≠ uniqueFilename j) := by
  constructor
  · intro tmp env
    exact ⟨rfl, getLast_cons_concat _ _ _⟩
  · intro i j hne heq
    apply hne
    unfold uniqueFilename at heq
    injection heq with h
    have h2 := congrArg List.length h
    simp only [List.length_replicate] at h2
    omega

/-- C9, witness: the first two scratch names differ, and a concrete call's
trace ends with removing its own scratch directory. -/
theorem c9_scratch_cleanup_witness :
    ((check (uniqueFilename 0) cenvEx).2).getLast?
      = some (Eff.rmrf (uniqueFilename 0)) ∧
    uniqueFilename 0 ≠ uniqueFilename 1 :=
  ⟨(c9_scratch_cleanup.1 (uniqueFilename 0) cenvEx).2,
    c9_scratch_cleanup.2 0 1 (by decide)⟩

/-- C4: the diff handling of `check`: exit code 0 returns the git-phase taint
unchanged with no diff; on exit 1 or 2 with captured output, output whose
every line reports a path only in the git tree is discarded entirely (no
mismatch), while a line for a file only in the package tree (or a `diff `
content-difference header) always survives the filter and forces a mismatch
whose diff text is the filtered output containing that line; any other exit
code, or exit 1/2 without output, rethrows the tool error. -/
theorem c4_diff_reconciler :
    (∀ (s : List Char) (git : Taint), diffStep 0 s git = DiffOutcome.ok git) ∧
    (∀ (code : Nat) (s : List Char) (git : Taint), (code = 1 ∨ code = 2) →
      (∀ l ∈ jsSplit '\n' s, onlyInGitP.isPrefixOf l = true) →
      diffStep code s git = DiffOutcome.ok git) ∧
    (∀ (code : Nat) (s : List Char) (git : Taint) (l : List Char),
      (code = 1 ∨ code = 2) → l ∈ jsSplit '\n' s →
      ((chars ("Only in package")).isPrefixOf l = true ∨
        (chars ("diff ")).isPrefixOf l = true) →
      l ∈ filteredLines s ∧
      diffStep code s git = DiffOutcome.mismatch (filterDiff s) git) ∧
    (∀ (code : Nat) (s : List Char) (git : Taint),
      ((¬code = 0 ∧ ¬code = 1 ∧ ¬code = 2) ∨ ((code = 1 ∨ code = 2) ∧ s = [])) →
      diffStep code s git = DiffOutcome.fatal code s) := by
  refine ⟨?_, ?_, ?_, ?_⟩
  · intro s git
    simp [diffStep]
  · intro code s git hc hall
    have hs : s ≠ [] := by
      intro he
      subst he
      have h0 := hall [] (by simp [jsSplit])
      exact absurd h0 (by decide)
    have hfl : filteredLines s = [] := by
      unfold filteredLines
      rw [List.filter_eq_nil_iff]
      intro a ha
      simp [hall a ha]
    have hfd : filterDiff s = [] := by
      unfold filterDiff
      rw [hfl]
      rfl
    obtain ⟨a, t, rfl⟩ := List.exists_cons_of_ne_nil hs
    rcases hc with h | h <;> subst h <;> simp [diffStep, hfd]
  · intro code s git l hc hl hpre
    have hnotgit : onlyInGitP.isPrefixOf l = false := by
      rcases hpre with h | h
      · exact onlyInGit_conflict_pkg l h
      · exact onlyInGit_conflict_diff l h
    have hmem : l ∈ filteredLines s := by
      unfold filteredLines
      exact List.mem_filter.mpr ⟨hl, by simp [hnotgit]⟩
    have hex : ∃ c, c ∈ l ∧ isWs c = false := by
      rcases hpre with h | h
      · refine ⟨'O', ?_, by decide⟩
        rw [List.isPrefixOf_iff_prefix] at h
        obtain ⟨t, ht⟩ := h
        subst ht
        exact List.mem_append_left _ (by decide)
      · refine ⟨'d', ?_, by decide⟩
        rw [List.isPrefixOf_iff_prefix] at h
        obtain ⟨t, ht⟩ := h
        subst ht
        exact List.mem_append_left _ (by decide)
    obtain ⟨c, hcl, hcw⟩ := hex
    have hsne : s ≠ [] := by
      intro he
      subst he
      have hln : l = [] := by simpa [jsSplit] using hl
      subst hln
      cases hcl
    have hcj : c ∈ jsJoin '\n' (filteredLines s) := mem_jsJoin _ _ _ hmem _ hcl
    have hne : filterDiff s ≠ [] := by
      unfold filterDiff
      exact jsTrim_ne_nil _ c hcj hcw
    refine ⟨hmem, ?_⟩
    obtain ⟨a, t2, rfl⟩ := List.exists_cons_of_ne_nil hsne
    cases hfd : filterDiff (a :: t2) with
    | nil => exact absurd hfd hne
    | cons x xs => rcases hc with h | h <;> subst h <;> simp [diffStep, hfd]
  · intro code s git h
    rcases h with ⟨h0, h1, h2⟩ | ⟨hc, rfl⟩
    · simp [diffStep, h0, h1, h2]
    · rcases hc with h | h <;> subst h <;> simp [diffStep]

/-- C4, witness: a package-only file line produces a mismatch containing it. -/
theorem c4_diff_reconciler_witness :
    chars ("Only in package: evil.js")
        ∈ filteredLines (chars ("Only in package: evil.js")) ∧
    diffStep 1 (chars ("Only in package: evil.js")) Taint.none
      = DiffOutcome.mismatch (filterDiff (chars ("Only in package: evil.js")))
          Taint.none :=
  c4_diff_reconciler.2.2.1 1 (chars ("Only in package: evil.js")) Taint.none
    (chars ("Only in package: evil.js")) (Or.inl rfl) (by decide) (Or.inl (by decide))

/-- C7, counterexample: for the dependency cycle `A → B → A` of `envC` (both
packages validating clean), the walk terminates but the cycled packages are
reported clean — the back edge's memo hit returns the already-resolved clean
outcome, so the aggregate result is `true`, contradicting the claim that
cycled packages are reported as not clean. -/
theorem c7_counterexample :
    (validate envC true 3 [] "A" "sA").1 = true := rfl

/-- C7, amended: across one dependency walk every resolved version is
check()-validated at most once (the trace of checked resolved-version keys
has no duplicates); a memo hit on the query key — pending or resolved —
returns the stored value with no `info`, so no recursion happens and at a
pending hit `taintedOf` reports not clean; a hit on the resolved-version key
likewise returns the stored value without running `check()`; a diamond
dependency reached via different specifiers at the same resolved version is
validated exactly once; and a dependency cycle terminates (the result is the
same for every sufficient fuel) with the back edge returning the memoized
outcome — so a clean cycle is reported clean, not unconditionally tainted. -/
theorem c7_memoized_walk :
    (∀ (env : WEnv) (r : Bool) (fuel : Nat) (p v : String),
      ((validate env r fuel [] p v).2.2).Nodup) ∧
    (∀ (env : WEnv) (memo : Memo) (p v : String) (x : Option Taint) (f : Nat) (r : Bool),
      mlookup memo (p ++ "@" ++ v) = some x →
      validate env r (f + 1) memo p v = (!(taintedOf x), memo, [])) ∧
    (∀ (env : WEnv) (memo : Memo) (p v : String) (info : PkgInfo) (x : Option Taint),
      mlookup memo (p ++ "@" ++ v) = Option.none →
      env.resolve p v = some info →
      mlookup (mset memo (p ++ "@" ++ v) Option.none) (p ++ "@" ++ info.version)
        = some x →
      validatePkg env memo p v
        = (⟨x, Option.none⟩, mset memo (p ++ "@" ++ v) Option.none, [])) ∧
    (∀ n : Nat,
      (validate envC true (n + 3) [] "A" "sA").1 = true ∧
      (validate envC true (n + 3) [] "A" "sA").2.2 = ["A@1.0.0", "B@1.0.0"]) ∧
    ((validate envD true 4 [] "A" "sA").1 = true ∧
      (validate envD true 4 [] "A" "sA").2.2
        = ["A@1.0.0", "B@1.0.0", "D@1.0.0", "C@1.0.0"]) := by
  refine ⟨?_, ?_, ?_, ?_, ?_, ?_⟩
  · intro env r fuel p v
    exact (validate_stepOK env r fuel [] p v).1
  · intro env memo p v x f r hq
    show validate env r (Nat.succ f) memo p v = _
    simp [validate, validatePkg, hq]
  · intro env memo p v info x h1 h2 h3
    simp only [validatePkg, h1, h2, h3]
  · intro n
    have h := cyc_top n
    exact ⟨by rw [h], by rw [h]⟩
  · rfl
  · rfl

/-- C7, witness: a query-key memo hit returns the stored clean result
unchanged, without recursing. -/
theorem c7_memoized_walk_witness :
    validate envF true (0 + 1) [("p" ++ "@" ++ "1", some Taint.none)] "p" "1"
      = (!(taintedOf (some Taint.none)),
         [("p" ++ "@" ++ "1", some Taint.none)], []) :=
  c7_memoized_walk.2.1 envF [("p" ++ "@" ++ "1", some Taint.none)] "p" "1"
    (some Taint.none) 0 true rfl

end Validate
